import Mathlib

/-!
Verification of the Paper PDF Renamer batch pipeline (`app/page.tsx`).

This file gives a shallow embedding of the batch resolution-and-rename
pipeline: DOI detection and normalization (`findDois`, `cleanDoi`),
filename synthesis (`computeCandidateName` and its segment helpers),
cross-job collision resolution (`withCollisionSuffix`,
`resolveAllFilenames`), and the per-job orchestrator steps of
`processJob`.  JavaScript strings are modelled as Lean `String`
(operating on `String.data : List Char`); JS `toLowerCase` is modelled
with `Char.toLower` (ASCII); the Unicode NFKD normalization performed by
`String.prototype.normalize` is not implementable here, so the whole
development is parameterized by an arbitrary `nfkd : String → String`
collaborator.  The server-side metadata resolver (`api/rename.py`) is
not part of the sources; it is modelled from the spec where needed.
-/

namespace PaperRenamer

/-- Whitespace as matched by the JS `\s` class (ASCII portion). -/
def isJsWs (c : Char) : Bool :=
  c == ' ' || c == '\t' || c == '\n' || c == '\r' || c == '\x0b' || c == '\x0c'

/-- Model of JS `String.prototype.toLowerCase` (ASCII case mapping). -/
def lowerStr (s : String) : String :=
  ⟨s.data.map Char.toLower⟩

/-- Model of JS `String.prototype.trim`. -/
def jsTrim (s : String) : String :=
  ⟨((s.data.dropWhile isJsWs).reverse.dropWhile isJsWs).reverse⟩

/-- The four concrete expansions of the prefix regex
`^https?:\/\/(dx\.)?doi\.org\//i`, longest first. -/
def doiUrlForms : List String :=
  ["https://dx.doi.org/", "http://dx.doi.org/", "https://doi.org/", "http://doi.org/"]

/-- Strip a leading `http(s)://(dx.)?doi.org/` (case-insensitively), as the
first `replace` in `cleanDoi` does. -/
def stripDoiUrl (cs : List Char) : List Char :=
  match doiUrlForms.find? (fun p => p.data.isPrefixOf (cs.map Char.toLower)) with
  | some p => cs.drop p.length
  | none => cs

/-- Trailing-punctuation class `[).,;]` of `cleanDoi`. -/
def isTailPunct (c : Char) : Bool :=
  c == ')' || c == '.' || c == ',' || c == ';'

/-- Model of `cleanDoi` from `app/page.tsx`: strip a DOI-URL prefix, remove all
whitespace, remove the characters `<>"'`, and strip trailing `[).,;]+`. -/
def cleanDoi (value : String) : String :=
  let s1 := stripDoiUrl value.data
  let s2 := s1.filter (fun c => !isJsWs c)
  let s3 := s2.filter (fun c => !(c == '<' || c == '>' || c == '"' || c == '\''))
  ⟨(s3.reverse.dropWhile isTailPunct).reverse⟩

/-- Path-hostile characters removed by `sanitizeFilename`. -/
def isPathHostile (c : Char) : Bool :=
  c == '\\' || c == '/' || c == ':' || c == '*' || c == '?' || c == '"' ||
  c == '<' || c == '>' || c == '|'

/-- Control characters removed by `sanitizeFilename` (`[\u0000-\u001f\u007f]`). -/
def isControl (c : Char) : Bool :=
  c.toNat ≤ 0x1f || c.toNat == 0x7f

/-- Collapse every maximal run of whitespace to a single space
(JS `replace(/\s+/g, " ")`). -/
def collapseWs : List Char → List Char
  | [] => []
  | [c] => if isJsWs c then [' '] else [c]
  | c1 :: c2 :: cs =>
    if isJsWs c1 && isJsWs c2 then collapseWs (c2 :: cs)
    else (if isJsWs c1 then ' ' else c1) :: collapseWs (c2 :: cs)

/-- Model of `sanitizeFilename` from `app/page.tsx`: NFKD-normalize (modelled by the
`nfkd` parameter), strip control characters, strip path-hostile characters,
collapse internal whitespace, trim. -/
def sanitizeFilename (nfkd : String → String) (value : String) : String :=
  jsTrim ⟨collapseWs (((nfkd value).data.filter (fun c => !isControl c)).filter
    (fun c => !isPathHostile c))⟩

/-- Model of `truncate` from `app/page.tsx`. -/
def truncate (value : String) (maxLength : Nat) : String :=
  if value.length > maxLength then ⟨value.data.take maxLength⟩ else value

/-- Model of `safeSegment` from `app/page.tsx`. -/
def safeSegment (nfkd : String → String) (value : String) (fallback : String) : String :=
  let cleaned := sanitizeFilename nfkd value
  if cleaned.length > 0 then cleaned else fallback

/-- Model of `CrossrefAuthor` from `app/page.tsx` (all fields optional). -/
structure CrossrefAuthor where
  family : Option String
  given : Option String
  name : Option String
deriving DecidableEq

/-- Model of `CrossrefWork` from `app/page.tsx`.  `issued` models the
`{ "date-parts"?: number[][] }` field. -/
structure CrossrefWork where
  title : Option (List String)
  author : Option (List CrossrefAuthor)
  issued : Option (List (List Nat))
  containerTitle : Option (List String)
  doi : Option String
deriving DecidableEq

/-- Model of `JobStatus` from `app/page.tsx`. -/
inductive JobStatus
  | queued
  | extracting
  | detecting
  | fetching
  | ready
  | failed
deriving DecidableEq

/-- The uploaded `File` collaborator; only its `name` is used by the core. -/
structure PdfFile where
  name : String
deriving DecidableEq

/-- Model of `PdfJob` from `app/page.tsx`. -/
structure PdfJob where
  id : String
  file : PdfFile
  status : JobStatus
  dois : List String
  selectedDoi : Option String
  manualDoi : Option String
  metadata : Option CrossrefWork
  error : Option String
  resolvedFilename : Option String
deriving DecidableEq

/-- Model of `getYear` from `app/page.tsx`: `work.issued?.["date-parts"]?.[0]?.[0]`,
with JS truthiness (`0` is falsy) on the result. -/
def getYear (work : CrossrefWork) : String :=
  match (work.issued.getD []).head?.bind List.head? with
  | some y => if y = 0 then "UnknownYear" else Nat.repr y
  | none => "UnknownYear"

/-- Model of `getFirstAuthor` from `app/page.tsx`:
`first.family ?? first.name ?? first.given ?? "UnknownAuthor"`. -/
def getFirstAuthor (work : CrossrefWork) : String :=
  match (work.author.getD []).head? with
  | none => "UnknownAuthor"
  | some first => first.family.getD (first.name.getD (first.given.getD "UnknownAuthor"))

/-- Model of `MAX_SHORT_TITLE_LENGTH` from `app/page.tsx`. -/
def maxShortTitleLength : Nat := 60

/-- Model of `MAX_JOURNAL_ABBR_LENGTH` from `app/page.tsx`. -/
def maxJournalAbbrLength : Nat := 40

/-- Model of `MAX_FILENAME_LENGTH` from `app/page.tsx`. -/
def maxFilenameLength : Nat := 180

/-- Model of `JOURNAL_STOP_WORDS` from `app/page.tsx`. -/
def journalStopWords : List String := ["of", "and", "the", "in"]

/-- Model of `getShortTitle` from `app/page.tsx`: sanitize `work.title?.[0] ?? "Untitled"`;
if longer than 60 characters, truncate to 60 and append the indicator `-`. -/
def getShortTitle (nfkd : String → String) (work : CrossrefWork) : String :=
  let title := sanitizeFilename nfkd ((work.title.getD []).headD "Untitled")
  if title.length ≤ maxShortTitleLength then title
  else ⟨title.data.take maxShortTitleLength⟩ ++ "-"

/-- Split on single separator characters, keeping empty segments, as JS
`split` does (after `sanitizeFilename` no separator runs remain, so splitting
on single whitespace characters models `split(/\s+/)` there). -/
def splitWsAux : List Char → List Char → List String
  | [], acc => [⟨acc.reverse⟩]
  | c :: cs, acc =>
    if isJsWs c then ⟨acc.reverse⟩ :: splitWsAux cs []
    else splitWsAux cs (c :: acc)

/-- First character of a word, uppercased, as a string
(JS `word[0]?.toUpperCase() ?? ""`). -/
def firstCharUpper (word : String) : String :=
  match word.data with
  | [] => ""
  | c :: _ => ⟨[c.toUpper]⟩

/-- Model of `getJournalAbbr` from `app/page.tsx`. -/
def getJournalAbbr (nfkd : String → String) (work : CrossrefWork) : String :=
  let journal := sanitizeFilename nfkd ((work.containerTitle.getD []).headD "")
  if journal = "" then "UnknownJournal"
  else
    let abbr := String.join ((((splitWsAux journal.data []).map jsTrim).filter
      (fun w => w.length > 0)).filter
      (fun w => !(journalStopWords.contains (lowerStr w))) |>.map firstCharUpper)
    truncate (if abbr = "" then "UnknownJournal" else abbr) maxJournalAbbrLength

/-- Case-insensitive `.pdf`-suffix test
(JS `name.toLowerCase().endsWith(".pdf")`). -/
def hasPdfSuffix (name : String) : Bool :=
  List.isSuffixOf ".pdf".data (lowerStr name).data

/-- Model of `getFallbackName` from `app/page.tsx`. -/
def getFallbackName (nfkd : String → String) (fileName : String) : String :=
  let base : String :=
    if hasPdfSuffix fileName then ⟨fileName.data.take (fileName.length - 4)⟩ else fileName
  safeSegment nfkd base "untitled" ++ ".pdf"

/-- Model of `computeCandidateName` from `app/page.tsx`. -/
def computeCandidateName (nfkd : String → String) (job : PdfJob) : String :=
  match job.status, job.metadata with
  | JobStatus.ready, some m =>
    let year := safeSegment nfkd (getYear m) "UnknownYear"
    let author := safeSegment nfkd (getFirstAuthor m) "UnknownAuthor"
    let shortTitle := safeSegment nfkd (getShortTitle nfkd m) "Untitled"
    let journalAbbr := safeSegment nfkd (getJournalAbbr nfkd m) "UnknownJournal"
    truncate (year ++ " - " ++ author ++ " - " ++ shortTitle ++ " - " ++ journalAbbr)
      maxFilenameLength ++ ".pdf"
  | _, _ => getFallbackName nfkd job.file.name

/-- Split `name` into the pair `(base, ext)` as `withCollisionSuffix` does:
`dot = name.toLowerCase().endsWith(".pdf") ? name.length - 4 : -1`,
`base = dot >= 0 ? name.slice(0, dot) : name`,
`ext = dot >= 0 ? name.slice(dot) : ".pdf"`. -/
def splitPdf (name : String) : String × String :=
  if hasPdfSuffix name then
    (⟨name.data.take (name.length - 4)⟩, ⟨name.data.drop (name.length - 4)⟩)
  else (name, ".pdf")

/-- The candidate tried by the collision loop at suffix index `i`:
`` `${base} (${index})${ext}` ``. -/
def candAt (base ext : String) (i : Nat) : String :=
  base ++ " (" ++ Nat.repr i ++ ")" ++ ext

/-- The `while (used.has(candidate.toLowerCase()))` loop of
`withCollisionSuffix`, with explicit fuel: starting at suffix `index`, return
the first candidate whose lowercase form is not in `used`. -/
def searchFrom (base ext : String) (used : List String) : Nat → Nat → String
  | index, 0 => candAt base ext index
  | index, fuel + 1 =>
    let candidate := candAt base ext index
    if lowerStr candidate ∈ used then searchFrom base ext used (index + 1) fuel
    else candidate

/-- Model of `withCollisionSuffix` from `app/page.tsx`.  The mutable case-insensitive
used-name `Set` is modelled by explicit state passing of a list of lowercase
names; the loop's fuel `used.length + 1` is shown sufficient below. -/
def withCollisionSuffix (name : String) (used : List String) : String × List String :=
  let base := (splitPdf name).1
  let ext := (splitPdf name).2
  let first := base ++ ext
  if lowerStr first ∈ used then
    let r := searchFrom base ext used 2 (used.length + 1)
    (r, lowerStr r :: used)
  else (first, lowerStr first :: used)

/-- The body of `resolveAllFilenames`: map over the jobs threading the
used-name set. -/
def resolveJobsAux (nfkd : String → String) : List PdfJob → List String → List PdfJob
  | [], _ => []
  | job :: rest, used =>
    let candidate := computeCandidateName nfkd job
    let p := withCollisionSuffix candidate used
    { job with resolvedFilename := some p.1 } :: resolveJobsAux nfkd rest p.2

/-- Model of `resolveAllFilenames` from `app/page.tsx`. -/
def resolveAllFilenames (nfkd : String → String) (nextJobs : List PdfJob) : List PdfJob :=
  resolveJobsAux nfkd nextJobs []

/-- Model of `updateJobs` from `app/page.tsx`: every batch mutation is a `mutator`
followed by a full recomputation of resolved filenames. -/
def updateJobs (nfkd : String → String) (mutator : List PdfJob → List PdfJob)
    (prev : List PdfJob) : List PdfJob :=
  resolveAllFilenames nfkd (mutator prev)

/-- Model of `withCollisionSuffix` applied to a whole sequence of candidate names in
order, threading the used-name set (as `resolveAllFilenames` does). -/
def assignNames : List String → List String → List String
  | [], _ => []
  | n :: rest, used =>
    let p := withCollisionSuffix n used
    p.1 :: assignNames rest p.2

/-- Character class `[\w.()/:;-]` of `DOI_REGEX` (`\w` is `[A-Za-z0-9_]`). -/
def isDoiBodyChar (c : Char) : Bool :=
  c.isAlphanum || c == '_' || c == '.' || c == '(' || c == ')' || c == '/' ||
  c == ':' || c == ';' || c == '-'

/-- Attempt to match `DOI_REGEX` (`/10\.\d{4,9}\/[\w.()/:;-]+/`) at the head of
`cs`, returning the matched characters and the remaining input.  The greedy
`\d{4,9}` with backtracking succeeds exactly when the maximal digit run after
`10.` has length 4 to 9 and is followed by `/` (a shorter backtracked run is
always followed by a digit, never `/`). -/
def matchDoiAt (cs : List Char) : Option (List Char × List Char) :=
  match cs with
  | '1' :: '0' :: '.' :: rest =>
    let ds := rest.takeWhile Char.isDigit
    if 4 ≤ ds.length ∧ ds.length ≤ 9 then
      match rest.drop ds.length with
      | '/' :: afterSlash =>
        let body := afterSlash.takeWhile isDoiBodyChar
        if body.isEmpty then none
        else some ('1' :: '0' :: '.' :: (ds ++ '/' :: body), afterSlash.drop body.length)
      | _ => none
    else none
  | _ => none

/-- Global regex scan (`text.match(DOI_REGEX)`): at each position try to match;
on success emit the match and continue after it, otherwise advance one
character.  The fuel is the input length, which every step consumes. -/
def scanAux : Nat → List Char → List (List Char)
  | 0, _ => []
  | _ + 1, [] => []
  | fuel + 1, c :: cs =>
    match matchDoiAt (c :: cs) with
    | some p => p.1 :: scanAux fuel p.2
    | none => scanAux fuel cs

/-- All matches of `DOI_REGEX` in `text`, in order (`text.match(DOI_REGEX) ?? []`). -/
def scanDois (text : String) : List String :=
  (scanAux text.data.length text.data).map (fun l => ⟨l⟩)

/-- Model of `[...new Set(list)]`: keep the first occurrence of each element. -/
def dedupFirstAux (seen : List String) : List String → List String
  | [] => []
  | x :: xs => if x ∈ seen then dedupFirstAux seen xs else x :: dedupFirstAux (x :: seen) xs

/-- The cleaned, nonempty regex matches of `text`, in match order
(`matches.map(cleanDoi).filter(Boolean)`). -/
def cleanedMatches (text : String) : List String :=
  ((scanDois text).map cleanDoi).filter (fun s => s ≠ "")

/-- Model of `findDois` from `app/page.tsx`:
`[...new Set(matches.map(cleanDoi).filter(Boolean))]`. -/
def findDois (text : String) : List String :=
  dedupFirstAux [] (cleanedMatches text)

/-- Job intake (`appendFiles`): a new job enters the batch `queued` with no
DOIs, no metadata and no error. -/
def intakeJob (id : String) (file : PdfFile) : PdfJob :=
  { id := id, file := file, status := JobStatus.queued, dois := [],
    selectedDoi := none, manualDoi := none, metadata := none, error := none,
    resolvedFilename := none }

/-- First update of `processJob`: enter `extracting`, clearing `error` and
`metadata`. -/
def stepStartExtract (j : PdfJob) : PdfJob :=
  { j with status := JobStatus.extracting, error := none, metadata := none }

/-- Second update of `processJob`: enter `detecting`. -/
def stepDetecting (j : PdfJob) : PdfJob :=
  { j with status := JobStatus.detecting }

/-- The `selected` computation of `processJob`:
`job.selectedDoi && job.selectedDoi.trim().length > 0 ? job.selectedDoi : (detected[0] ?? "")`. -/
def selectedForLookup (j : PdfJob) (detected : List String) : String :=
  let s := j.selectedDoi.getD ""
  if (jsTrim s).length > 0 then s else detected.headD ""

/-- Third update of `processJob`: record the detected DOIs and the selected DOI. -/
def stepSetDois (detected : List String) (j : PdfJob) : PdfJob :=
  { j with dois := detected, selectedDoi := some (selectedForLookup j detected) }

/-- Failure update when no DOI was detected (clears `metadata`). -/
def stepFailNoDoiClear (j : PdfJob) : PdfJob :=
  { j with status := JobStatus.failed, error := some "No DOI found", metadata := none }

/-- Failure update when the DOI to look up is empty. -/
def stepFailNoDoi (j : PdfJob) : PdfJob :=
  { j with status := JobStatus.failed, error := some "No DOI found" }

/-- Failure update for an invalid manual DOI. -/
def stepFailInvalidDoi (j : PdfJob) : PdfJob :=
  { j with status := JobStatus.failed, error := some "Invalid DOI" }

/-- Update entering the `fetching` state. -/
def stepFetching (j : PdfJob) : PdfJob :=
  { j with status := JobStatus.fetching }

/-- Success update after the metadata lookup. -/
def stepReady (work : CrossrefWork) (doi : String) (j : PdfJob) : PdfJob :=
  { j with
    metadata := some work,
    selectedDoi := some doi,
    status := JobStatus.ready,
    error := none }

/-- Failure update after the metadata lookup (clears `metadata`). -/
def stepFailLookup (msg : String) (j : PdfJob) : PdfJob :=
  { j with status := JobStatus.failed, error := some msg, metadata := none }

/-- Failure update of the outer `catch` (text extraction failed). -/
def stepFailPdf (j : PdfJob) : PdfJob :=
  { j with status := JobStatus.failed, error := some "Error processing PDF" }

/-- UI mutation: the user selects a different detected DOI. -/
def stepSelectDoi (d : String) (j : PdfJob) : PdfJob :=
  { j with selectedDoi := some d }

/-- UI mutation: the user edits the manual DOI input. -/
def stepManualDoi (s : String) (j : PdfJob) : PdfJob :=
  { j with manualDoi := some s }

/-- Per-job effect of `resolveAllFilenames`: only `resolvedFilename` is written. -/
def stepAssignResolved (r : String) (j : PdfJob) : PdfJob :=
  { j with resolvedFilename := some r }

/-- The sequence of states a single job passes through during `processJob`,
given the outcome of text extraction and of the metadata lookup.  Each list
element is the job after one `updateJobs` call, in program order. -/
def processJobTrace (j : PdfJob) (extract : Except Unit String)
    (lookup : String → Except String CrossrefWork) : List PdfJob :=
  let j1 := stepStartExtract j
  match extract with
  | Except.error _ => [j1, stepFailPdf j1]
  | Except.ok text =>
    let j2 := stepDetecting j1
    let detected := findDois text
    let manualTrim := jsTrim (j2.manualDoi.getD "")
    let j3 := stepSetDois detected j2
    let doiToLookup :=
      if manualTrim ≠ "" then cleanDoi manualTrim else selectedForLookup j2 detected
    let manualInvalid := manualTrim ≠ "" ∧ (jsTrim doiToLookup).length = 0
    if detected.isEmpty then [j1, j2, j3, stepFailNoDoiClear j3]
    else if doiToLookup = "" ∨ (jsTrim doiToLookup).length = 0 then
      [j1, j2, j3, stepFailNoDoi j3]
    else if manualInvalid then [j1, j2, j3, stepFailInvalidDoi j3]
    else
      let j4 := stepFetching j3
      match lookup doiToLookup with
      | Except.ok work => [j1, j2, j3, j4, stepReady work doiToLookup j4]
      | Except.error msg => [j1, j2, j3, j4, stepFailLookup msg j4]

/-- The invariant of claim C5: `metadata` is non-null iff `status = ready`. -/
def metadataInv (j : PdfJob) : Prop :=
  j.metadata.isSome = true ↔ j.status = JobStatus.ready

/-- Response of a metadata registry to one request: HTTP 2xx with the expected
envelope, an HTTP failure status, or a malformed (envelope-less) payload. -/
inductive RegistryResponse
  | ok (work : CrossrefWork)
  | http (status : Nat)
  | malformed

/-- The failure a source reports: its last HTTP error or a malformed payload. -/
inductive LookupFailure
  | http (status : Nat)
  | malformed

/-- Server-error class (HTTP 5xx), the transient-failure class of §4.2. -/
def isServerError (status : Nat) : Bool :=
  500 ≤ status && status < 600

/-- Modelled from the spec: the backoff delay before retry number
`attempt + 1`, "increasing backoff delay between attempts" (§4.2).  The
concrete schedule is exponential. -/
def backoffDelayMs (attempt : Nat) : Nat :=
  500 * 2 ^ attempt

/-- Outcome of querying one registry: the result, the number of requests made
to it, and the backoff delays slept between its attempts. -/
structure SourceOutcome where
  result : Except LookupFailure CrossrefWork
  requests : Nat
  delays : List Nat

/-- Modelled from the spec: one registry's retry loop (`api/rename.py` is not
under the sources; only its caller `src/App.tsx` and the README describing it
are).  Per §4.2: a 2xx response with the envelope succeeds; a malformed
payload or non-5xx failure fails that source immediately; a 5xx response is
retried after a backoff delay while extra attempts remain.  `src` gives the
registry's response to attempt number `attempt`. -/
def runSourceFrom (src : Nat → RegistryResponse) : Nat → Nat → SourceOutcome
  | attempt, extra =>
    match src attempt, extra with
    | RegistryResponse.ok w, _ => ⟨Except.ok w, 1, []⟩
    | RegistryResponse.malformed, _ => ⟨Except.error LookupFailure.malformed, 1, []⟩
    | RegistryResponse.http s, 0 => ⟨Except.error (LookupFailure.http s), 1, []⟩
    | RegistryResponse.http s, extra' + 1 =>
      if isServerError s then
        let rest := runSourceFrom src (attempt + 1) extra'
        ⟨rest.result, rest.requests + 1, backoffDelayMs attempt :: rest.delays⟩
      else ⟨Except.error (LookupFailure.http s), 1, []⟩

/-- Modelled from the spec: "a capped number of additional attempts (bounded,
small — two extra attempts)" (§4.2). -/
def maxExtraAttempts : Nat := 2

/-- Query one registry with its full retry budget. -/
def runSource (src : Nat → RegistryResponse) : SourceOutcome :=
  runSourceFrom src 0 maxExtraAttempts

/-- Outcome of a full resolve: result plus how many requests each registry saw. -/
structure ResolveOutcome where
  result : Except LookupFailure CrossrefWork
  primaryRequests : Nat
  secondaryRequests : Nat

/-- Modelled from the spec: the resolver of §4.2.  The primary source is
queried first (with retry); on its failure the secondary source is queried
with the same DOI as automatic fallback; the caller sees the secondary's
failure only when both fail. -/
def resolveMeta (primary secondary : Nat → RegistryResponse) : ResolveOutcome :=
  let p := runSource primary
  match p.result with
  | Except.ok w => ⟨Except.ok w, p.requests, 0⟩
  | Except.error _ =>
    let s := runSource secondary
    ⟨s.result, p.requests, s.requests⟩

/-- Decimal decoding of a digit string, used to invert `Nat.repr`. -/
def decodeDigits (l : List Char) : Nat :=
  l.foldl (fun acc c => 10 * acc + (c.toNat - 48)) 0

/-- A lookup collaborator that is never meant to be reached. -/
def constLookup : String → Except String CrossrefWork :=
  fun _ => Except.error "lookup not attempted"

/-- The example metadata record of §8 of the spec. -/
def sampleWork : CrossrefWork :=
  { title := some ["A Study of Things"],
    author := some [{ family := some "Smith", given := none, name := none }],
    issued := some [[2021]],
    containerTitle := some ["Journal of the Royal Society"],
    doi := some "10.1/abc" }

/-- A job that finished its lookup with `sampleWork` attached. -/
def sampleReadyJob : PdfJob :=
  { intakeJob "sample" ⟨"sample.pdf"⟩ with
    status := JobStatus.ready,
    metadata := some sampleWork }

/-- A primary registry that answers HTTP 503 twice, then succeeds. -/
def primary503 : Nat → RegistryResponse :=
  fun n => if n < 2 then RegistryResponse.http 503 else RegistryResponse.ok sampleWork

/-- A primary registry that always answers HTTP 404. -/
def primary404 : Nat → RegistryResponse :=
  fun _ => RegistryResponse.http 404

/-- A secondary registry that always answers with a malformed payload. -/
def secondaryMalformed : Nat → RegistryResponse :=
  fun _ => RegistryResponse.malformed

/-!  ## Verification

Lemmas about `Nat.repr` (needed to show that collision candidates with
distinct indices are distinct), the collision-resolver core, and the claim
theorems. -/

theorem sdata_append (a b : String) : (a ++ b).data = a.data ++ b.data := by
  cases a; cases b; rfl

theorem toDigitsCore_append (b : Nat) : ∀ (fuel n : Nat) (ds : List Char),
    Nat.toDigitsCore b fuel n ds = Nat.toDigitsCore b fuel n [] ++ ds := by
  intro fuel
  induction fuel with
  | zero => intro n ds; rfl
  | succ fuel ih =>
    intro n ds
    simp only [Nat.toDigitsCore]
    by_cases h : n / b = 0
    · simp [h]
    · simp only [h, if_false]
      rw [ih (n / b) (Nat.digitChar (n % b) :: ds), ih (n / b) [Nat.digitChar (n % b)]]
      simp

theorem digitChar_decode : ∀ m, m < 10 → (Nat.digitChar m).toNat - 48 = m := by
  decide

theorem decode_toDigitsCore : ∀ (fuel n : Nat), n < fuel →
    decodeDigits (Nat.toDigitsCore 10 fuel n []) = n := by
  intro fuel
  induction fuel with
  | zero => intro n h; omega
  | succ fuel ih =>
    intro n h
    simp only [Nat.toDigitsCore]
    by_cases h0 : n / 10 = 0
    · simp only [h0, if_true]
      have hn : n % 10 = n := by omega
      have hd := digitChar_decode n (by omega)
      simp [decodeDigits, hn, hd]
    · simp only [h0, if_false]
      rw [toDigitsCore_append]
      have hlt : n / 10 < fuel := by
        have := Nat.div_lt_self (by omega : 0 < n) (by omega : 1 < 10)
        omega
      have hrec := ih (n / 10) hlt
      simp only [decodeDigits, List.foldl_append] at *
      rw [hrec]
      have := digitChar_decode (n % 10) (by omega)
      simp [this]
      omega

theorem repr_injective : ∀ m n : Nat, Nat.repr m = Nat.repr n → m = n := by
  intro m n h
  have hd : Nat.toDigits 10 m = Nat.toDigits 10 n := congrArg String.data h
  have hm := decode_toDigitsCore (m + 1) m (Nat.lt_succ_self m)
  have hn := decode_toDigitsCore (n + 1) n (Nat.lt_succ_self n)
  rw [show Nat.toDigitsCore 10 (m + 1) m [] = Nat.toDigits 10 m from rfl, hd] at hm
  rw [show Nat.toDigitsCore 10 (n + 1) n [] = Nat.toDigits 10 n from rfl] at hn
  omega

theorem toDigitsCore_chars : ∀ (fuel n : Nat) (ds : List Char),
    ∀ c ∈ Nat.toDigitsCore 10 fuel n ds, c ∈ ds ∨ ∃ m, m < 10 ∧ c = Nat.digitChar m := by
  intro fuel
  induction fuel with
  | zero => intro n ds c hc; exact Or.inl hc
  | succ fuel ih =>
    intro n ds c hc
    simp only [Nat.toDigitsCore] at hc
    by_cases h0 : n / 10 = 0
    · simp only [h0, if_true, List.mem_cons] at hc
      rcases hc with hc | hc
      · exact Or.inr ⟨n % 10, Nat.mod_lt n (by omega), hc⟩
      · exact Or.inl hc
    · simp only [h0, if_false] at hc
      rcases ih (n / 10) (Nat.digitChar (n % 10) :: ds) c hc with hc | hc
      · rcases List.mem_cons.mp hc with hc | hc
        · exact Or.inr ⟨n % 10, Nat.mod_lt n (by omega), hc⟩
        · exact Or.inl hc
      · exact Or.inr hc

theorem digitChar_toLower : ∀ m, m < 10 → (Nat.digitChar m).toLower = Nat.digitChar m := by
  decide

theorem map_toLower_repr (n : Nat) :
    (Nat.repr n).data.map Char.toLower = (Nat.repr n).data := by
  apply (List.map_congr_left ?_).trans (List.map_id _)
  intro c hc
  rcases toDigitsCore_chars (n + 1) n [] c hc with hc | ⟨m, hm, rfl⟩
  · simp at hc
  · exact digitChar_toLower m hm

theorem lowerStr_candAt_inj (base ext : String) (i j : Nat)
    (h : lowerStr (candAt base ext i) = lowerStr (candAt base ext j)) : i = j := by
  have hd : (candAt base ext i).data.map Char.toLower
      = (candAt base ext j).data.map Char.toLower := congrArg String.data h
  simp only [candAt, sdata_append, List.map_append, map_toLower_repr] at hd
  have h1 := List.append_cancel_right hd
  have h2 := List.append_cancel_right h1
  have h3 := List.append_cancel_left h2
  exact repr_injective i j (String.ext h3)

theorem exists_free_candidate (base ext : String) (used : List String) (start : Nat) :
    ∃ k, k < used.length + 1 ∧ lowerStr (candAt base ext (start + k)) ∉ used := by
  by_contra hall
  push_neg at hall
  have hinj : Function.Injective (fun k : Nat => lowerStr (candAt base ext (start + k))) := by
    intro a b hab
    have := lowerStr_candAt_inj base ext (start + a) (start + b) hab
    omega
  have hnd : ((List.range (used.length + 1)).map
      (fun k => lowerStr (candAt base ext (start + k)))).Nodup :=
    List.Nodup.map hinj (List.nodup_range _)
  have hsub : (List.range (used.length + 1)).map
      (fun k => lowerStr (candAt base ext (start + k))) ⊆ used := by
    intro x hx
    rcases List.mem_map.mp hx with ⟨k, hk, rfl⟩
    exact hall k (List.mem_range.mp hk)
  have hlen := (List.subperm_of_subset hnd hsub).length_le
  simp only [List.length_map, List.length_range] at hlen
  omega

theorem shift_free (base ext : String) (used : List String) (index f : Nat)
    (h : ∃ k, k < f + 1 ∧ lowerStr (candAt base ext (index + k)) ∉ used)
    (hmem : lowerStr (candAt base ext index) ∈ used) :
    ∃ k, k < f ∧ lowerStr (candAt base ext (index + 1 + k)) ∉ used := by
  rcases h with ⟨k, hk, hfree⟩
  have hk0 : k ≠ 0 := by rintro rfl; exact hfree hmem
  refine ⟨k - 1, by omega, ?_⟩
  have he : index + 1 + (k - 1) = index + k := by omega
  rw [he]
  exact hfree

theorem searchFrom_not_mem (base ext : String) (used : List String) :
    ∀ (fuel index : Nat),
      (∃ k, k < fuel ∧ lowerStr (candAt base ext (index + k)) ∉ used) →
      lowerStr (searchFrom base ext used index fuel) ∉ used := by
  intro fuel
  induction fuel with
  | zero =>
    intro index h
    rcases h with ⟨k, hk, _⟩
    omega
  | succ fuel ih =>
    intro index h
    simp only [searchFrom]
    by_cases hmem : lowerStr (candAt base ext index) ∈ used
    · simp only [hmem, if_true]
      exact ih (index + 1) (shift_free base ext used index fuel h hmem)
    · simp only [if_neg hmem]
      exact hmem

theorem searchFrom_fuel_irrel (base ext : String) (used : List String) :
    ∀ (f g index : Nat),
      (∃ k, k < f ∧ lowerStr (candAt base ext (index + k)) ∉ used) →
      (∃ k, k < g ∧ lowerStr (candAt base ext (index + k)) ∉ used) →
      searchFrom base ext used index f = searchFrom base ext used index g := by
  intro f
  induction f with
  | zero =>
    intro g index hf _
    rcases hf with ⟨k, hk, _⟩
    omega
  | succ f ih =>
    intro g index hf hg
    match g with
    | 0 =>
      rcases hg with ⟨k, hk, _⟩
      omega
    | g + 1 =>
      simp only [searchFrom]
      by_cases hmem : lowerStr (candAt base ext index) ∈ used
      · simp only [hmem, if_true]
        exact ih g (index + 1) (shift_free base ext used index f hf hmem)
          (shift_free base ext used index g hg hmem)
      · simp only [hmem, if_false]

theorem withCollisionSuffix_not_mem (name : String) (used : List String) :
    lowerStr (withCollisionSuffix name used).1 ∉ used := by
  simp only [withCollisionSuffix]
  by_cases hmem : lowerStr ((splitPdf name).1 ++ (splitPdf name).2) ∈ used
  · simp only [hmem, if_true]
    exact searchFrom_not_mem _ _ used (used.length + 1) 2
      (exists_free_candidate (splitPdf name).1 (splitPdf name).2 used 2)
  · simp only [if_neg hmem]
    exact hmem

theorem withCollisionSuffix_used (name : String) (used : List String) :
    (withCollisionSuffix name used).2 = lowerStr (withCollisionSuffix name used).1 :: used := by
  simp only [withCollisionSuffix]
  by_cases hmem : lowerStr ((splitPdf name).1 ++ (splitPdf name).2) ∈ used
  · simp only [hmem, if_true]
  · simp only [hmem, if_false]

theorem resolveJobsAux_spec (nfkd : String → String) :
    ∀ (jobs : List PdfJob) (used : List String),
      (∀ j ∈ resolveJobsAux nfkd jobs used, j.resolvedFilename.isSome = true) ∧
      (∀ j ∈ resolveJobsAux nfkd jobs used,
        lowerStr (j.resolvedFilename.getD "") ∉ used) ∧
      ((resolveJobsAux nfkd jobs used).map
        (fun j => lowerStr (j.resolvedFilename.getD ""))).Nodup := by
  intro jobs
  induction jobs with
  | nil => intro used; simp [resolveJobsAux]
  | cons job rest ih =>
    intro used
    have hnm := withCollisionSuffix_not_mem (computeCandidateName nfkd job) used
    have hus := withCollisionSuffix_used (computeCandidateName nfkd job) used
    have ihr := ih (withCollisionSuffix (computeCandidateName nfkd job) used).2
    simp only [resolveJobsAux]
    refine ⟨?_, ?_, ?_⟩
    · intro j hj
      rcases List.mem_cons.mp hj with rfl | hj
      · rfl
      · exact ihr.1 j hj
    · intro j hj
      rcases List.mem_cons.mp hj with rfl | hj
      · exact hnm
      · intro hmem
        have h2 := ihr.2.1 j hj
        rw [hus] at h2
        exact h2 (List.mem_cons_of_mem _ hmem)
    · rw [List.map_cons, List.nodup_cons]
      refine ⟨?_, ihr.2.2⟩
      intro hmem
      rcases List.mem_map.mp hmem with ⟨j, hj, hje⟩
      have h2 := ihr.2.1 j hj
      rw [hus] at h2
      apply h2
      rw [hje]
      exact List.mem_cons_self _ _

/-- Claim C1: after every batch mutation (each of which goes through
`updateJobs = resolveAllFilenames ∘ mutator`), the `resolvedFilename` values
of all jobs in the resulting batch are present and pairwise distinct under
case-insensitive comparison. -/
theorem updateJobs_resolved_unique (nfkd : String → String)
    (mutator : List PdfJob → List PdfJob) (prev : List PdfJob) :
    ((updateJobs nfkd mutator prev).map
      (fun j => lowerStr (j.resolvedFilename.getD ""))).Nodup ∧
    ∀ j ∈ updateJobs nfkd mutator prev, j.resolvedFilename.isSome = true := by
  have h := resolveJobsAux_spec nfkd (mutator prev) []
  exact ⟨h.2.2, h.1⟩

/-- Claim C4: the collision resolver maps the candidate sequence
`["Paper.pdf", "paper.pdf", "Paper.pdf"]`, processed in order, to
`["Paper.pdf", "paper (2).pdf", "Paper (3).pdf"]`. -/
theorem collision_example_assignment :
    assignNames ["Paper.pdf", "paper.pdf", "Paper.pdf"] [] =
      ["Paper.pdf", "paper (2).pdf", "Paper (3).pdf"] := by
  decide

/-- Claim C10: the collision-suffix search always returns a name not in the
used set; the loop needs at most `used.length + 1` probes (any larger fuel
gives the same result), and candidates with distinct suffix indices are
distinct, which is what makes the search terminate. -/
theorem collision_search_terminates (name : String) (used : List String) :
    lowerStr (withCollisionSuffix name used).1 ∉ used ∧
    (∀ fuel, used.length + 1 ≤ fuel →
      searchFrom (splitPdf name).1 (splitPdf name).2 used 2 fuel =
        searchFrom (splitPdf name).1 (splitPdf name).2 used 2 (used.length + 1)) ∧
    (∀ i j : Nat, i ≠ j →
      lowerStr (candAt (splitPdf name).1 (splitPdf name).2 i) ≠
        lowerStr (candAt (splitPdf name).1 (splitPdf name).2 j)) := by
  refine ⟨withCollisionSuffix_not_mem name used, ?_, ?_⟩
  · intro fuel hf
    apply searchFrom_fuel_irrel
    · rcases exists_free_candidate (splitPdf name).1 (splitPdf name).2 used 2 with ⟨k, hk, hfree⟩
      exact ⟨k, by omega, hfree⟩
    · exact exists_free_candidate (splitPdf name).1 (splitPdf name).2 used 2
  · intro i j hij h
    exact hij (lowerStr_candAt_inj _ _ i j h)

theorem collision_search_terminates_w :
    lowerStr (withCollisionSuffix "a.pdf" ["a.pdf"]).1 ∉ ["a.pdf"] ∧
    searchFrom (splitPdf "a.pdf").1 (splitPdf "a.pdf").2 ["a.pdf"] 2 5 =
      searchFrom (splitPdf "a.pdf").1 (splitPdf "a.pdf").2 ["a.pdf"] 2 2 ∧
    lowerStr (candAt (splitPdf "a.pdf").1 (splitPdf "a.pdf").2 2) ≠
      lowerStr (candAt (splitPdf "a.pdf").1 (splitPdf "a.pdf").2 3) :=
  ⟨(collision_search_terminates "a.pdf" ["a.pdf"]).1,
   (collision_search_terminates "a.pdf" ["a.pdf"]).2.1 5 (by decide),
   (collision_search_terminates "a.pdf" ["a.pdf"]).2.2 2 3 (by decide)⟩

/-- Claim C9: recomputing the batch's resolved filenames preserves length and
order, and leaves every field of every job unchanged except
`resolvedFilename`. -/
theorem resolveAllFilenames_frame (nfkd : String → String) (jobs : List PdfJob) :
    (resolveAllFilenames nfkd jobs).length = jobs.length ∧
    List.Forall₂ (fun a b => b.id = a.id ∧ b.file = a.file ∧ b.status = a.status ∧
        b.dois = a.dois ∧ b.selectedDoi = a.selectedDoi ∧ b.manualDoi = a.manualDoi ∧
        b.metadata = a.metadata ∧ b.error = a.error)
      jobs (resolveAllFilenames nfkd jobs) := by
  have haux : ∀ (js : List PdfJob) (used : List String),
      List.Forall₂ (fun a b => b.id = a.id ∧ b.file = a.file ∧ b.status = a.status ∧
          b.dois = a.dois ∧ b.selectedDoi = a.selectedDoi ∧ b.manualDoi = a.manualDoi ∧
          b.metadata = a.metadata ∧ b.error = a.error)
        js (resolveJobsAux nfkd js used) := by
    intro js
    induction js with
    | nil => intro used; exact List.Forall₂.nil
    | cons job rest ih =>
      intro used
      exact List.Forall₂.cons ⟨rfl, rfl, rfl, rfl, rfl, rfl, rfl, rfl⟩ (ih _)
  refine ⟨?_, haux jobs []⟩
  exact ((haux jobs []).length_eq).symm

theorem dedupFirstAux_spec :
    ∀ (l seen : List String),
      (∀ x ∈ dedupFirstAux seen l, x ∉ seen) ∧
      (dedupFirstAux seen l).Nodup ∧
      List.Sublist (dedupFirstAux seen l) l ∧
      (∀ x, x ∈ dedupFirstAux seen l ↔ x ∈ l ∧ x ∉ seen) := by
  intro l
  induction l with
  | nil => intro seen; simp [dedupFirstAux]
  | cons x xs ih =>
    intro seen
    by_cases hx : x ∈ seen
    · have heq : dedupFirstAux seen (x :: xs) = dedupFirstAux seen xs := by
        simp [dedupFirstAux, hx]
      rw [heq]
      refine ⟨(ih seen).1, (ih seen).2.1, List.Sublist.cons x (ih seen).2.2.1, ?_⟩
      intro y
      rw [(ih seen).2.2.2 y]
      constructor
      · rintro ⟨hy, hys⟩
        exact ⟨List.mem_cons_of_mem _ hy, hys⟩
      · rintro ⟨hy, hys⟩
        rcases List.mem_cons.mp hy with rfl | hy
        · exact absurd hx hys
        · exact ⟨hy, hys⟩
    · have hieq : dedupFirstAux seen (x :: xs) = x :: dedupFirstAux (x :: seen) xs := by
        simp [dedupFirstAux, hx]
      rw [hieq]
      have ihx := ih (x :: seen)
      refine ⟨?_, ?_, List.Sublist.cons₂ x ihx.2.2.1, ?_⟩
      · intro y hy
        rcases List.mem_cons.mp hy with rfl | hy
        · exact hx
        · intro hys
          exact (ihx.1 y hy) (List.mem_cons_of_mem _ hys)
      · rw [List.nodup_cons]
        refine ⟨?_, ihx.2.1⟩
        intro hmem
        exact (ihx.1 x hmem) (List.mem_cons_self _ _)
      · intro y
        rw [List.mem_cons, ihx.2.2.2 y]
        constructor
        · rintro (rfl | ⟨hy, hys⟩)
          · exact ⟨List.mem_cons_self _ _, hx⟩
          · refine ⟨List.mem_cons_of_mem _ hy, ?_⟩
            intro hin
            exact hys (List.mem_cons_of_mem _ hin)
        · rintro ⟨hy, hys⟩
          rcases List.mem_cons.mp hy with rfl | hy
          · exact Or.inl rfl
          · by_cases hxy : y = x
            · exact Or.inl hxy
            · refine Or.inr ⟨hy, ?_⟩
              intro hin
              rcases List.mem_cons.mp hin with rfl | hin
              · exact hxy rfl
              · exact hys hin

theorem pairwise_mono_mem {R S : String → String → Prop} :
    ∀ l : List String, l.Pairwise R →
      (∀ a b, a ∈ l → b ∈ l → R a b → S a b) → l.Pairwise S := by
  intro l h
  induction h with
  | nil => intro _; exact List.Pairwise.nil
  | cons hr _ ih =>
    rename_i x xs hp
    intro himp
    refine List.Pairwise.cons ?_ (ih ?_)
    · intro b hb
      exact himp x b (List.mem_cons_self _ _) (List.mem_cons_of_mem _ hb) (hr b hb)
    · intro a b ha hb hab
      exact himp a b (List.mem_cons_of_mem _ ha) (List.mem_cons_of_mem _ hb) hab

theorem dedupFirstAux_indexOf_mono :
    ∀ (l seen : List String),
      (dedupFirstAux seen l).Pairwise (fun a b => l.indexOf a < l.indexOf b) := by
  intro l
  induction l with
  | nil => intro seen; simp [dedupFirstAux]
  | cons x xs ih =>
    intro seen
    by_cases hx : x ∈ seen
    · have heq : dedupFirstAux seen (x :: xs) = dedupFirstAux seen xs := by
        simp [dedupFirstAux, hx]
      rw [heq]
      refine pairwise_mono_mem (dedupFirstAux seen xs) (ih seen) ?_
      intro a b ha hb hab
      have hna : a ∉ seen := (dedupFirstAux_spec xs seen).1 a ha
      have hnb : b ∉ seen := (dedupFirstAux_spec xs seen).1 b hb
      have hax : x ≠ a := by rintro rfl; exact hna hx
      have hbx : x ≠ b := by rintro rfl; exact hnb hx
      rw [List.indexOf_cons_ne _ hax, List.indexOf_cons_ne _ hbx]
      omega
    · have heq : dedupFirstAux seen (x :: xs) = x :: dedupFirstAux (x :: seen) xs := by
        simp [dedupFirstAux, hx]
      rw [heq]
      refine List.Pairwise.cons ?_ ?_
      · intro b hb
        have hnb : b ∉ x :: seen := (dedupFirstAux_spec xs (x :: seen)).1 b hb
        have hbx : x ≠ b := by rintro rfl; exact hnb (List.mem_cons_self _ _)
        rw [List.indexOf_cons_self, List.indexOf_cons_ne _ hbx]
        omega
      · refine pairwise_mono_mem (dedupFirstAux (x :: seen) xs) (ih (x :: seen)) ?_
        intro a b ha hb hab
        have hna := (dedupFirstAux_spec xs (x :: seen)).1 a ha
        have hnb := (dedupFirstAux_spec xs (x :: seen)).1 b hb
        have hax : x ≠ a := by rintro rfl; exact hna (List.mem_cons_self _ _)
        have hbx : x ≠ b := by rintro rfl; exact hnb (List.mem_cons_self _ _)
        rw [List.indexOf_cons_ne _ hax, List.indexOf_cons_ne _ hbx]
        omega

/-- Claim C3 (amended): for every input text, `findDois` returns the cleaned
regex matches in first-occurrence order — a duplicate-free sublist of the
match sequence containing exactly the nonempty cleaned matches, whose
elements' first-occurrence indices (`List.indexOf`) in the match sequence are
strictly increasing — deduplicated by exact string equality, and returns the
empty sequence when nothing matches.  (Deduplication is not
case-insensitive; see the counterexample.) -/
theorem findDois_spec (text : String) :
    (findDois text).Nodup ∧
    List.Sublist (findDois text) (cleanedMatches text) ∧
    (findDois text).Pairwise
      (fun a b => (cleanedMatches text).indexOf a < (cleanedMatches text).indexOf b) ∧
    (∀ d, d ∈ findDois text ↔ d ∈ cleanedMatches text) ∧
    (scanDois text = [] → findDois text = []) := by
  have h := dedupFirstAux_spec (cleanedMatches text) []
  refine ⟨h.2.1, h.2.2.1, dedupFirstAux_indexOf_mono (cleanedMatches text) [], ?_, ?_⟩
  · intro d
    rw [show findDois text = dedupFirstAux [] (cleanedMatches text) from rfl, h.2.2.2 d]
    simp
  · intro hscan
    have hcm : cleanedMatches text = [] := by
      simp [cleanedMatches, hscan]
    simp [findDois, hcm, dedupFirstAux]

/-- Claim C3 counterexample: on the text `10.1234/AB 10.1234/ab` the detector
returns two DOIs that are equal under case-insensitive comparison (the
`Set`-based deduplication in `findDois` uses exact string equality, not the
normalized case-insensitive form). -/
theorem findDois_case_insensitive_duplicate :
    findDois "10.1234/AB 10.1234/ab" = ["10.1234/AB", "10.1234/ab"] ∧
    lowerStr "10.1234/AB" = lowerStr "10.1234/ab" ∧
    "10.1234/AB" ≠ "10.1234/ab" := by
  refine ⟨by decide, by decide, by decide⟩

theorem processJobTrace_shapes (j : PdfJob) (text : String)
    (lookup : String → Except String CrossrefWork) :
    processJobTrace j (Except.ok text) lookup =
      [stepStartExtract j, stepDetecting (stepStartExtract j),
       stepSetDois (findDois text) (stepDetecting (stepStartExtract j)),
       stepFailNoDoiClear
         (stepSetDois (findDois text) (stepDetecting (stepStartExtract j)))] ∨
    processJobTrace j (Except.ok text) lookup =
      [stepStartExtract j, stepDetecting (stepStartExtract j),
       stepSetDois (findDois text) (stepDetecting (stepStartExtract j)),
       stepFailNoDoi
         (stepSetDois (findDois text) (stepDetecting (stepStartExtract j)))] ∨
    processJobTrace j (Except.ok text) lookup =
      [stepStartExtract j, stepDetecting (stepStartExtract j),
       stepSetDois (findDois text) (stepDetecting (stepStartExtract j)),
       stepFailInvalidDoi
         (stepSetDois (findDois text) (stepDetecting (stepStartExtract j)))] ∨
    (∃ w d, processJobTrace j (Except.ok text) lookup =
      [stepStartExtract j, stepDetecting (stepStartExtract j),
       stepSetDois (findDois text) (stepDetecting (stepStartExtract j)),
       stepFetching (stepSetDois (findDois text) (stepDetecting (stepStartExtract j))),
       stepReady w d
         (stepFetching
           (stepSetDois (findDois text) (stepDetecting (stepStartExtract j))))]) ∨
    (∃ m, processJobTrace j (Except.ok text) lookup =
      [stepStartExtract j, stepDetecting (stepStartExtract j),
       stepSetDois (findDois text) (stepDetecting (stepStartExtract j)),
       stepFetching (stepSetDois (findDois text) (stepDetecting (stepStartExtract j))),
       stepFailLookup m
         (stepFetching
           (stepSetDois (findDois text) (stepDetecting (stepStartExtract j))))]) := by
  simp only [processJobTrace]
  repeat' split
  all_goals first
    | exact Or.inl rfl
    | exact Or.inr (Or.inl rfl)
    | exact Or.inr (Or.inr (Or.inl rfl))
    | exact Or.inr (Or.inr (Or.inr (Or.inl ⟨_, _, rfl⟩)))
    | exact Or.inr (Or.inr (Or.inr (Or.inr ⟨_, rfl⟩)))

/-- Claim C5: `metadata` is non-null iff `status = ready`, for every job
reachable through the orchestrator's operations: intake establishes the
invariant, every state passed through by `processJob` (process and retry both
run it) satisfies it, and DOI selection, manual DOI editing and filename
assignment preserve it. -/
theorem metadata_iff_ready :
    (∀ id file, metadataInv (intakeJob id file)) ∧
    (∀ (j : PdfJob) (extract : Except Unit String)
        (lookup : String → Except String CrossrefWork),
      ∀ x ∈ processJobTrace j extract lookup, metadataInv x) ∧
    (∀ j : PdfJob, metadataInv j → ∀ d s r,
      metadataInv (stepSelectDoi d j) ∧ metadataInv (stepManualDoi s j) ∧
      metadataInv (stepAssignResolved r j)) := by
  refine ⟨?_, ?_, ?_⟩
  · intro id file
    simp [metadataInv, intakeJob]
  · intro j extract lookup x hx
    cases extract with
    | error e =>
      simp only [processJobTrace, List.mem_cons, List.not_mem_nil, or_false] at hx
      rcases hx with rfl | rfl <;>
        simp [metadataInv, stepStartExtract, stepFailPdf]
    | ok text =>
      rcases processJobTrace_shapes j text lookup with htr | htr | htr | ⟨w, d, htr⟩ | ⟨m, htr⟩
      · rw [htr] at hx
        simp only [List.mem_cons, List.not_mem_nil, or_false] at hx
        rcases hx with rfl | rfl | rfl | rfl <;>
          simp [metadataInv, stepStartExtract, stepDetecting, stepSetDois,
            stepFailNoDoiClear]
      · rw [htr] at hx
        simp only [List.mem_cons, List.not_mem_nil, or_false] at hx
        rcases hx with rfl | rfl | rfl | rfl <;>
          simp [metadataInv, stepStartExtract, stepDetecting, stepSetDois,
            stepFailNoDoi]
      · rw [htr] at hx
        simp only [List.mem_cons, List.not_mem_nil, or_false] at hx
        rcases hx with rfl | rfl | rfl | rfl <;>
          simp [metadataInv, stepStartExtract, stepDetecting, stepSetDois,
            stepFailInvalidDoi]
      · rw [htr] at hx
        simp only [List.mem_cons, List.not_mem_nil, or_false] at hx
        rcases hx with rfl | rfl | rfl | rfl | rfl <;>
          simp [metadataInv, stepStartExtract, stepDetecting, stepSetDois,
            stepFetching, stepReady]
      · rw [htr] at hx
        simp only [List.mem_cons, List.not_mem_nil, or_false] at hx
        rcases hx with rfl | rfl | rfl | rfl | rfl <;>
          simp [metadataInv, stepStartExtract, stepDetecting, stepSetDois,
            stepFetching, stepFailLookup]
  · intro j hinv d s r
    refine ⟨?_, ?_, ?_⟩
    · simpa [metadataInv, stepSelectDoi] using hinv
    · simpa [metadataInv, stepManualDoi] using hinv
    · simpa [metadataInv, stepAssignResolved] using hinv

theorem metadata_iff_ready_w :
    metadataInv (intakeJob "j" ⟨"a.pdf"⟩) ∧
    metadataInv (stepSelectDoi "10.1/x" (intakeJob "j" ⟨"a.pdf"⟩)) :=
  ⟨metadata_iff_ready.1 "j" ⟨"a.pdf"⟩,
   (metadata_iff_ready.2.2 (intakeJob "j" ⟨"a.pdf"⟩)
     (by simp [metadataInv, intakeJob]) "10.1/x" "s" "r").1⟩

/-- Claim C6: a job whose document yields zero detected DOIs and that has no
manual DOI input ends `processJob` in `failed` with error `No DOI found`, and
no state along the run has status `fetching`. -/
theorem no_doi_found_never_fetches (j : PdfJob) (text : String)
    (lookup : String → Except String CrossrefWork)
    (hm : jsTrim (j.manualDoi.getD "") = "")
    (hd : findDois text = []) :
    (∀ x ∈ processJobTrace j (Except.ok text) lookup,
      x.status ≠ JobStatus.fetching) ∧
    ∃ last, (processJobTrace j (Except.ok text) lookup).getLast? = some last ∧
      last.status = JobStatus.failed ∧ last.error = some "No DOI found" := by
  have htr : processJobTrace j (Except.ok text) lookup =
      [stepStartExtract j, stepDetecting (stepStartExtract j),
       stepSetDois [] (stepDetecting (stepStartExtract j)),
       stepFailNoDoiClear (stepSetDois [] (stepDetecting (stepStartExtract j)))] := by
    simp [processJobTrace, hd]
  rw [htr]
  constructor
  · intro x hx
    simp only [List.mem_cons, List.not_mem_nil, or_false] at hx
    rcases hx with rfl | rfl | rfl | rfl <;>
      simp [stepStartExtract, stepDetecting, stepSetDois, stepFailNoDoiClear]
  · refine ⟨_, rfl, ?_, ?_⟩
    · simp [stepFailNoDoiClear]
    · simp [stepFailNoDoiClear]

theorem no_doi_found_never_fetches_w :
    (∀ x ∈ processJobTrace (intakeJob "j" ⟨"a.pdf"⟩) (Except.ok "hello") constLookup,
      x.status ≠ JobStatus.fetching) ∧
    ∃ last, (processJobTrace (intakeJob "j" ⟨"a.pdf"⟩)
        (Except.ok "hello") constLookup).getLast? = some last ∧
      last.status = JobStatus.failed ∧ last.error = some "No DOI found" :=
  no_doi_found_never_fetches (intakeJob "j" ⟨"a.pdf"⟩) "hello" constLookup
    (by decide) (by decide)

/-- Claim C7 (code bug): a job in `detecting` whose manual DOI input is
present but normalizes to empty is failed with error `No DOI found`, not the
`Invalid DOI` demanded by the spec: the `!doiToLookup` guard of `processJob`
fires before the `manualInvalid` check, leaving the `Invalid DOI` branch
unreachable.  Here the manual input `;;;` trims to itself and cleans to the
empty string while a DOI is detected in the text. -/
theorem invalid_manual_doi_yields_no_doi_found :
    ((processJobTrace { intakeJob "j1" ⟨"a.pdf"⟩ with manualDoi := some ";;;" }
        (Except.ok "see 10.1234/abcd") constLookup).map
      (fun x => (x.status, x.error))).getLast? =
      some (JobStatus.failed, some "No DOI found") ∧
    (some "No DOI found" : Option String) ≠ some "Invalid DOI" := by
  refine ⟨by decide, by decide⟩

theorem strLength_pos_of_ne (s : String) (h : s ≠ "") : 0 < s.length := by
  cases s with
  | mk data =>
    cases data with
    | nil => exact absurd rfl h
    | cons c cs => simp [String.length]

/-- Claim C8: for a job with resolved metadata the candidate filename is the
segments year, first author (family name, else display name, else given
name), shortened title and journal abbreviation, in that fixed order joined
by the separator " - " (the joined base is truncated at the documented
180-character bound before the fixed ".pdf" extension); any segment that
sanitizes to empty is replaced by its fallback token, and the title segment
is truncated at 60 characters with the indicator "-" appended exactly when
truncation occurs. -/
theorem candidate_name_composition (nfkd : String → String) (j : PdfJob)
    (m : CrossrefWork) (hs : j.status = JobStatus.ready)
    (hm : j.metadata = some m) :
    computeCandidateName nfkd j =
      truncate (safeSegment nfkd (getYear m) "UnknownYear" ++ " - " ++
        safeSegment nfkd (getFirstAuthor m) "UnknownAuthor" ++ " - " ++
        safeSegment nfkd (getShortTitle nfkd m) "Untitled" ++ " - " ++
        safeSegment nfkd (getJournalAbbr nfkd m) "UnknownJournal")
        maxFilenameLength ++ ".pdf" ∧
    (∀ v fb, sanitizeFilename nfkd v = "" → safeSegment nfkd v fb = fb) ∧
    (∀ v fb, sanitizeFilename nfkd v ≠ "" →
      safeSegment nfkd v fb = sanitizeFilename nfkd v) ∧
    (∀ w : CrossrefWork,
      (sanitizeFilename nfkd ((w.title.getD []).headD "Untitled")).length ≤
          maxShortTitleLength →
      getShortTitle nfkd w = sanitizeFilename nfkd ((w.title.getD []).headD "Untitled")) ∧
    (∀ w : CrossrefWork,
      maxShortTitleLength <
          (sanitizeFilename nfkd ((w.title.getD []).headD "Untitled")).length →
      getShortTitle nfkd w =
        ⟨(sanitizeFilename nfkd ((w.title.getD []).headD "Untitled")).data.take
          maxShortTitleLength⟩ ++ "-") := by
  refine ⟨?_, ?_, ?_, ?_, ?_⟩
  · unfold computeCandidateName
    rw [hs, hm]
  · intro v fb h
    simp [safeSegment, h]
  · intro v fb h
    have hp := strLength_pos_of_ne _ h
    simp [safeSegment, hp]
  · intro w h
    simp only [getShortTitle]
    rw [if_pos h]
  · intro w h
    simp only [getShortTitle]
    rw [if_neg (by omega)]

theorem candidate_name_composition_w :
    computeCandidateName id sampleReadyJob =
      "2021 - Smith - A Study of Things - JRS.pdf" ∧
    safeSegment id " " "UnknownAuthor" = "UnknownAuthor" := by
  have h := candidate_name_composition id sampleReadyJob sampleWork rfl rfl
  exact ⟨h.1.trans (by decide), h.2.1 " " "UnknownAuthor" (by decide)⟩

theorem runSourceFrom_requests_pos (src : Nat → RegistryResponse) :
    ∀ (extra attempt : Nat), 1 ≤ (runSourceFrom src attempt extra).requests := by
  intro extra
  induction extra with
  | zero =>
    intro attempt
    unfold runSourceFrom
    cases src attempt <;> simp
  | succ extra ih =>
    intro attempt
    unfold runSourceFrom
    cases src attempt with
    | ok w => simp
    | malformed => simp
    | http s =>
      by_cases hse : isServerError s = true
      · simp [hse]
      · simp [hse]

theorem runSourceFrom_requests_le (src : Nat → RegistryResponse) :
    ∀ (extra attempt : Nat), (runSourceFrom src attempt extra).requests ≤ extra + 1 := by
  intro extra
  induction extra with
  | zero =>
    intro attempt
    unfold runSourceFrom
    cases src attempt <;> simp
  | succ extra ih =>
    intro attempt
    unfold runSourceFrom
    cases src attempt with
    | ok w => simp
    | malformed => simp
    | http s =>
      by_cases hse : isServerError s = true
      · have := ih (attempt + 1)
        simp [hse]
        omega
      · simp [hse]

theorem backoffDelayMs_mono (a b : Nat) (h : a < b) :
    backoffDelayMs a < backoffDelayMs b := by
  unfold backoffDelayMs
  have h2 : 2 ^ a < 2 ^ b := Nat.pow_lt_pow_right (by omega) h
  omega

theorem runSourceFrom_delays (src : Nat → RegistryResponse) :
    ∀ (extra attempt : Nat),
      List.Chain' (· < ·) (runSourceFrom src attempt extra).delays ∧
      (∀ d ∈ (runSourceFrom src attempt extra).delays, backoffDelayMs attempt ≤ d) := by
  intro extra
  induction extra with
  | zero =>
    intro attempt
    unfold runSourceFrom
    cases src attempt <;> simp
  | succ extra ih =>
    intro attempt
    unfold runSourceFrom
    cases src attempt with
    | ok w => simp
    | malformed => simp
    | http s =>
      by_cases hse : isServerError s = true
      · simp only [hse, if_true]
        have ihd := ih (attempt + 1)
        constructor
        · rw [List.chain'_cons']
          refine ⟨?_, ihd.1⟩
          intro y hy
          have hmem : y ∈ (runSourceFrom src (attempt + 1) extra).delays :=
            List.mem_of_mem_head? hy
          have hge := ihd.2 y hmem
          have hmono := backoffDelayMs_mono attempt (attempt + 1) (by omega)
          omega
        · intro d hd
          rcases List.mem_cons.mp hd with rfl | hd
          · exact Nat.le_refl _
          · have hge := ihd.2 d hd
            have hmono := backoffDelayMs_mono attempt (attempt + 1) (by omega)
            omega
      · simp [hse]

/-- Claim C2 (spec-modelled): on failure of the primary registry the
secondary is queried before the caller sees any error (the error the caller
sees is the secondary's); a primary answering 503, 503, then 200 succeeds
after three primary requests while the secondary is never contacted; a
primary whose first answer is a non-5xx failure makes exactly one primary
request (no retry) and falls back to the secondary immediately; each source
is asked at most 1 + 2 = 3 times; and the backoff delays slept between a
source's attempts are strictly increasing. -/
theorem resolver_fallback_and_retry (primary secondary : Nat → RegistryResponse)
    (w : CrossrefWork) :
    (∀ e, (resolveMeta primary secondary).result = Except.error e →
      (runSource secondary).result = Except.error e ∧
      1 ≤ (resolveMeta primary secondary).secondaryRequests) ∧
    (primary 0 = RegistryResponse.http 503 → primary 1 = RegistryResponse.http 503 →
      primary 2 = RegistryResponse.ok w →
      (resolveMeta primary secondary).result = Except.ok w ∧
      (resolveMeta primary secondary).primaryRequests = 3 ∧
      (resolveMeta primary secondary).secondaryRequests = 0) ∧
    (∀ s, ¬ isServerError s = true → primary 0 = RegistryResponse.http s →
      (resolveMeta primary secondary).primaryRequests = 1 ∧
      (resolveMeta primary secondary).result = (runSource secondary).result ∧
      (resolveMeta primary secondary).secondaryRequests = (runSource secondary).requests ∧
      1 ≤ (runSource secondary).requests) ∧
    (∀ src : Nat → RegistryResponse,
      (runSource src).requests ≤ 1 + maxExtraAttempts) ∧
    (∀ (src : Nat → RegistryResponse) (attempt extra : Nat),
      List.Chain' (· < ·) (runSourceFrom src attempt extra).delays) := by
  refine ⟨?_, ?_, ?_, ?_, ?_⟩
  · intro e he
    simp only [resolveMeta] at he ⊢
    cases hp : (runSource primary).result with
    | ok v =>
      rw [hp] at he
      simp at he
    | error f =>
      rw [hp] at he
      exact ⟨he, runSourceFrom_requests_pos secondary maxExtraAttempts 0⟩
  · intro h0 h1 h2
    have hse : isServerError 503 = true := by decide
    have e2 : runSourceFrom primary 2 0 = ⟨Except.ok w, 1, []⟩ := by
      unfold runSourceFrom
      rw [h2]
    have e1 : runSourceFrom primary 1 1 = ⟨Except.ok w, 2, [backoffDelayMs 1]⟩ := by
      unfold runSourceFrom
      rw [h1]
      simp [hse, e2]
    have e0 : runSource primary =
        ⟨Except.ok w, 3, [backoffDelayMs 0, backoffDelayMs 1]⟩ := by
      unfold runSource maxExtraAttempts
      unfold runSourceFrom
      rw [h0]
      simp [hse, e1]
    simp [resolveMeta, e0]
  · intro s hns h0
    have e0 : runSourceFrom primary 0 maxExtraAttempts =
        ⟨Except.error (LookupFailure.http s), 1, []⟩ := by
      unfold maxExtraAttempts
      unfold runSourceFrom
      rw [h0]
      simp [hns]
    refine ⟨?_, ?_, ?_, runSourceFrom_requests_pos secondary maxExtraAttempts 0⟩ <;>
      simp [resolveMeta, runSource, e0]
  · intro src
    exact runSourceFrom_requests_le src maxExtraAttempts 0
  · intro src attempt extra
    exact (runSourceFrom_delays src extra attempt).1

theorem resolver_fallback_and_retry_w :
    (resolveMeta primary503 secondaryMalformed).result = Except.ok sampleWork ∧
    (resolveMeta primary503 secondaryMalformed).primaryRequests = 3 ∧
    (resolveMeta primary503 secondaryMalformed).secondaryRequests = 0 ∧
    (resolveMeta primary404 secondaryMalformed).primaryRequests = 1 := by
  have h503 := (resolver_fallback_and_retry primary503 secondaryMalformed
    sampleWork).2.1 rfl rfl rfl
  have h404 := ((resolver_fallback_and_retry primary404 secondaryMalformed
    sampleWork).2.2.1 404 (by decide) rfl).1
  exact ⟨h503.1, h503.2.1, h503.2.2, h404⟩

theorem updateJobs_resolved_unique_w :
    ((updateJobs id (fun prev => prev ++ [intakeJob "a" ⟨"x.pdf"⟩, intakeJob "b" ⟨"x.pdf"⟩]) []).map
      (fun j => lowerStr (j.resolvedFilename.getD ""))).Nodup ∧
    ∀ j ∈ updateJobs id (fun prev => prev ++ [intakeJob "a" ⟨"x.pdf"⟩, intakeJob "b" ⟨"x.pdf"⟩]) [],
      j.resolvedFilename.isSome = true :=
  updateJobs_resolved_unique id
    (fun prev => prev ++ [intakeJob "a" ⟨"x.pdf"⟩, intakeJob "b" ⟨"x.pdf"⟩]) []

theorem findDois_spec_w :
    (findDois "x 10.1234/a 10.1234/a").Nodup ∧
    List.Sublist (findDois "x 10.1234/a 10.1234/a")
      (cleanedMatches "x 10.1234/a 10.1234/a") ∧
    (findDois "x 10.1234/a 10.1234/a").Pairwise
      (fun a b => (cleanedMatches "x 10.1234/a 10.1234/a").indexOf a <
        (cleanedMatches "x 10.1234/a 10.1234/a").indexOf b) :=
  ⟨(findDois_spec "x 10.1234/a 10.1234/a").1,
   (findDois_spec "x 10.1234/a 10.1234/a").2.1,
   (findDois_spec "x 10.1234/a 10.1234/a").2.2.1⟩

theorem resolveAllFilenames_frame_w :
    (resolveAllFilenames id [intakeJob "a" ⟨"x.pdf"⟩]).length =
      [intakeJob "a" ⟨"x.pdf"⟩].length :=
  (resolveAllFilenames_frame id [intakeJob "a" ⟨"x.pdf"⟩]).1

end PaperRenamer
